import Mathlib

/-!
Shallow embedding of the cubyz-node-client networking core
(src/binary.ts, src/receiveChannel.ts, src/sendChannel.ts, src/connection.ts)
and proofs about the spec's claims.

Conventions of the embedding:
* JS `number` values holding byte values are `Nat`; buffers are `List Nat`.
* Sequence numbers and `now` timestamps are `Int`; the JS 32-bit coercions
  (`| 0`, `<< 0`) are made explicit through `toInt32`.
* JS `Map` objects are association lists with the key-lookup, guarded-insert
  and delete operations spelled out; JS Map iteration order (insertion order)
  is list order.
* A thrown JS exception is an `Option String` component of the result: `some
  msg` means the exception `msg` escaped, and the state components returned
  alongside are the object's fields at the moment of the throw (mutations made
  before the throw persist, as they do for a JS object).
* `while` loops whose termination measure is structural are well-founded
  recursions; the two byte-consuming loops use an explicit fuel that is
  computed from the loop's own bound (documented at each), so on every input
  the fuel exceeds the possible iteration count.
-/

namespace Cubyz

/-- `toInt32` from src/binary.ts: JS `(value << 0) | 0`, the ToInt32 coercion:
reduce modulo 2^32 into the signed range `[-2^31, 2^31)`. -/
def toInt32 (v : Int) : Int :=
  (v + 2 ^ 31) % 2 ^ 32 - 2 ^ 31

/-- `seqLessThan` from src/binary.ts: signed 32-bit comparison of `a - b`. -/
def seqLessThan (a b : Int) : Bool :=
  toInt32 (a - b) < 0

/-- `addSeq` from src/binary.ts: `toInt32((base + delta) | 0)`; for integral
arguments the inner `| 0` is itself ToInt32, so this is `toInt32 (base + delta)`. -/
def addSeq (base delta : Int) : Int :=
  toInt32 (base + delta)

/-- `readInt32BE(buffer, offset)` from src/binary.ts via Node's
`Buffer.readInt32BE`: four big-endian bytes as a signed 32-bit integer. -/
def readInt32BE (buffer : List Nat) (offset : Nat) : Int :=
  toInt32 ((buffer.getD offset 0) * 2 ^ 24 + (buffer.getD (offset + 1) 0) * 2 ^ 16
    + (buffer.getD (offset + 2) 0) * 2 ^ 8 + buffer.getD (offset + 3) 0)

/-- The do-while loop of `encodeVarInt` (src/binary.ts): emit the low 7 bits,
set the continuation bit when more remain, shift right by 7. The fuel never
runs out: `remaining / 128 < remaining` strictly on every recursive call, so
`remaining + 1` bounds the iteration count from the first call. -/
def encodeVarIntLoop (fuel : Nat) (remaining : Nat) : List Nat :=
  match fuel with
  | 0 => []
  | fuel + 1 =>
    let byte := remaining % 128
    let rest := remaining / 128
    if rest = 0 then [byte] else (byte + 128) :: encodeVarIntLoop fuel rest

/-- `encodeVarInt` from src/binary.ts. The source takes a JS number, throws on
negative input and applies `>>> 0` (ToUint32); every call site passes a
buffer length, so the embedding takes a `Nat` and applies the `% 2^32` of
`>>> 0`. Little-endian: low 7 bits first. -/
def encodeVarInt (value : Nat) : List Nat :=
  encodeVarIntLoop (value % 2 ^ 32 + 1) (value % 2 ^ 32)

section JsMap

variable {κ α : Type} [DecidableEq κ]

/-- JS `Map.has`. -/
def mapHas (m : List (κ × α)) (k : κ) : Bool :=
  m.any (fun p => decide (p.1 = k))

/-- JS `Map.get` (`none` = `undefined`). -/
def mapGet (m : List (κ × α)) (k : κ) : Option α :=
  (m.find? (fun p => decide (p.1 = k))).map (·.2)

/-- JS `Map.set`: replace in place a present key, else append (insertion
order is preserved, as JS Maps iterate in insertion order). -/
def mapSet (m : List (κ × α)) (k : κ) (v : α) : List (κ × α) :=
  match m with
  | [] => [(k, v)]
  | (k', v') :: rest => if k' = k then (k, v) :: rest else (k', v') :: mapSet rest k v

/-- JS `Map.delete`: remove the entry with the key, if present. -/
def mapDelete (m : List (κ × α)) (k : κ) : List (κ × α) :=
  match m with
  | [] => []
  | (k', v') :: rest => if k' = k then rest else (k', v') :: mapDelete rest k

end JsMap

/-! ## ReceiveChannel (src/receiveChannel.ts) -/

/-- A `Chunk` of the reassembled stream: a buffer plus a read offset. -/
structure Chunk where
  buffer : List Nat
  offset : Nat
deriving Repr, DecidableEq

/-- One decoded application message. -/
structure ReceivedMessage where
  protocolId : Nat
  payload : List Nat
deriving Repr, DecidableEq

/-- `PendingEntryResult` returned by `ReceiveChannel.handlePacket`. -/
structure PendingEntryResult where
  accepted : Bool
  ackStart : Int
  messages : List ReceivedMessage
deriving Repr, DecidableEq

/-- `HeaderInfo` produced by `ReceiveChannel.peekHeader`. `size` is an `Int`
because the JS accumulator `(size << 7) | (byte & 0x7f)` is 32-bit signed. -/
structure HeaderInfo where
  protocolId : Nat
  size : Int
  headerLength : Nat
deriving Repr, DecidableEq

/-- The mutable fields of a `ReceiveChannel`. -/
structure RecvState where
  channelId : Nat
  expected : Int
  pending : List (Int × List Nat)
  chunks : List Chunk
  bufferedLength : Nat
  partialHeader : Option (Nat × Int)
deriving Repr, DecidableEq

/-- The `ReceiveChannel` constructor. -/
def freshRecv (channelId : Nat) (initialSequence : Int) : RecvState :=
  { channelId := channelId, expected := initialSequence, pending := [],
    chunks := [], bufferedLength := 0, partialHeader := none }

/-- `peekByte`: walk the chunk list; `none` models the `RangeError` thrown
when the offset is beyond the buffered data. -/
def peekByte (chunks : List Chunk) (offset : Nat) : Option Nat :=
  match chunks with
  | [] => none
  | c :: rest =>
    let available := c.buffer.length - c.offset
    if offset < available then some (c.buffer.getD (c.offset + offset) 0)
    else peekByte rest (offset - available)

/-- JS `(size << 7) | (byte & 0x7f)` on a 32-bit signed accumulator. The shift
leaves the low 7 bits zero, so the bitwise or equals addition of the masked
byte. -/
def shl7or (size : Int) (byte : Nat) : Int :=
  toInt32 (size * 128) + (byte % 128 : Nat)

/-- The varint loop of `peekHeader`. Returns `none` for "need more data"
(the source's `return null`), `some (size, bytesRead)` on success. The error
is the source's `throw new Error(...)` when a sixth continuation byte is seen
(`bytesRead > 5` after the increment). The fuel never runs out: recursion
happens only with the incremented `bytesRead` at most 5, so from the sole
call site (`bytesRead = 0`) the depth is at most 6 and fuel 7 suffices. -/
def peekHeaderLoop (fuel : Nat) (chunks : List Chunk) (bufferedLength : Nat)
    (size : Int) (bytesRead : Nat) :
    Option String × Option (Int × Nat) :=
  match fuel with
  | 0 => (some "peekHeader loop fuel exhausted", none)
  | fuel + 1 =>
    let byteOffset := 1 + bytesRead
    if bufferedLength ≤ byteOffset then (none, none)
    else
      match peekByte chunks byteOffset with
      | none => (some "Peek offset beyond buffered data", none)
      | some byte =>
        let size' := shl7or size byte
        let bytesRead' := bytesRead + 1
        if byte &&& 128 = 0 then (none, some (size', bytesRead'))
        else if 5 < bytesRead' then
          (some "Protocol length varint exceeds expected size", none)
        else if bufferedLength < 1 + bytesRead' then (none, none)
        else peekHeaderLoop fuel chunks bufferedLength size' bytesRead'

/-- `peekHeader` over the stream fields: `(thrown?, headerInfo?)`; a `none`
info means not enough data buffered (the source's `return null`). -/
def peekHeader (chunks : List Chunk) (bufferedLength : Nat) :
    Option String × Option HeaderInfo :=
  if bufferedLength < 1 then (none, none)
  else
    match peekByte chunks 0 with
    | none => (some "Peek offset beyond buffered data", none)
    | some protocolId =>
      match peekHeaderLoop 7 chunks bufferedLength 0 0 with
      | (some e, _) => (some e, none)
      | (none, none) => (none, none)
      | (none, some (size, bytesRead)) =>
        (none, some { protocolId := protocolId, size := size,
                      headerLength := 1 + bytesRead })

/-- The while-loop of `consumeBytes`, with `remaining > 0` already known at
entry (as a `Nat`). Fuel: each iteration either takes at least one byte or
drops an exhausted chunk, so `remaining + chunks.length` bounds the iteration
count; the caller passes one more than that. An empty chunk list with bytes
still to take models the source crashing on `this.chunks[0]` being undefined
(unreachable behind the `length > bufferedLength` guard). -/
def consumeLoop (fuel : Nat) (chunks : List Chunk) (bufferedLength : Nat)
    (remaining : Nat) (acc : List Nat) :
    Option String × List Nat × List Chunk × Nat :=
  match fuel with
  | 0 => (some "consumeBytes loop fuel exhausted", acc, chunks, bufferedLength)
  | fuel + 1 =>
    if remaining = 0 then (none, acc, chunks, bufferedLength)
    else
      match chunks with
      | [] => (some "chunks[0] is undefined", acc, chunks, bufferedLength)
      | c :: rest =>
        let available := c.buffer.length - c.offset
        let take := min available remaining
        let segment := (c.buffer.drop c.offset).take take
        let c' : Chunk := { c with offset := c.offset + take }
        let chunks' := if c'.offset = c.buffer.length then rest else c' :: rest
        consumeLoop fuel chunks' (bufferedLength - take) (remaining - take)
          (acc ++ segment)

/-- `consumeBytes(length)`: the `length` is an `Int` because `drainMessages`
passes the 32-bit signed `size`. `length = 0` returns the empty buffer at
once; a negative `length` passes both guards and the `while (remaining > 0)`
loop does not run, which is the same result, so both are merged into the
first branch. -/
def consumeBytes (chunks : List Chunk) (bufferedLength : Nat) (length : Int) :
    Option String × List Nat × List Chunk × Nat :=
  if length ≤ 0 then (none, [], chunks, bufferedLength)
  else if (bufferedLength : Int) < length then
    (some "consumeBytes length exceeds buffered data", [], chunks, bufferedLength)
  else
    consumeLoop (length.toNat + chunks.length + 1) chunks bufferedLength
      length.toNat []

/-- The while-loop of `drainMessages`. Fuel: every completed iteration that
starts without a partial header consumes a header of at least 2 bytes, and an
iteration that starts with one clears it, so `bufferedLength + 2` bounds the
iteration count. -/
def drainLoop (fuel : Nat) (chunks : List Chunk) (bufferedLength : Nat)
    (partialHeader : Option (Nat × Int)) (acc : List ReceivedMessage) :
    Option String × List ReceivedMessage × List Chunk × Nat × Option (Nat × Int) :=
  match fuel with
  | 0 => (some "drainMessages loop fuel exhausted", acc, chunks, bufferedLength,
          partialHeader)
  | fuel + 1 =>
    match partialHeader with
    | none =>
      match peekHeader chunks bufferedLength with
      | (some e, _) => (some e, acc, chunks, bufferedLength, none)
      | (none, none) => (none, acc, chunks, bufferedLength, none)
      | (none, some header) =>
        match consumeBytes chunks bufferedLength (header.headerLength : Int) with
        | (some e, _, chunks', buf') => (some e, acc, chunks', buf', none)
        | (none, _, chunks', buf') =>
          drainLoop fuel chunks' buf' (some (header.protocolId, header.size)) acc
    | some (protocolId, size) =>
      if (bufferedLength : Int) < size then
        (none, acc, chunks, bufferedLength, some (protocolId, size))
      else
        match consumeBytes chunks bufferedLength size with
        | (some e, _, chunks', buf') =>
          (some e, acc, chunks', buf', some (protocolId, size))
        | (none, payload, chunks', buf') =>
          drainLoop fuel chunks' buf' none
            (acc ++ [{ protocolId := protocolId, payload := payload }])

/-- `drainMessages`, collecting into the caller's message list. -/
def drainMessages (st : RecvState) (collected : List ReceivedMessage) :
    Option String × List ReceivedMessage × RecvState :=
  match drainLoop (st.bufferedLength + 2) st.chunks st.bufferedLength
      st.partialHeader collected with
  | (err, msgs, chunks', buf', header') =>
    (err, msgs, { st with
                    chunks := chunks',
                    bufferedLength := buf',
                    partialHeader := header' })

/-- `enqueueChunk`. -/
def enqueueChunk (st : RecvState) (chunk : List Nat) : RecvState :=
  { st with
      chunks := st.chunks ++ [{ buffer := chunk, offset := 0 }],
      bufferedLength := st.bufferedLength + chunk.length }

/-- The while-loop of `flushPending`: pop the chunk keyed by `expected`, move
it to the stream, advance `expected` by its length. The fuel never runs out:
every iteration deletes one entry of `pending`, so `pending.length + 1`
bounds the iteration count from the call site. -/
def flushLoop (fuel : Nat) (expected : Int) (pending : List (Int × List Nat))
    (st : RecvState) (progressed : Bool) : RecvState × Bool :=
  match fuel with
  | 0 => ({ st with expected := expected, pending := pending }, progressed)
  | fuel + 1 =>
    match mapGet pending expected with
    | none => ({ st with expected := expected, pending := pending }, progressed)
    | some chunk =>
      let pending' := mapDelete pending expected
      let st' := enqueueChunk st chunk
      flushLoop fuel (addSeq expected (chunk.length : Int)) pending' st' true

/-- `flushPending`: drain pending contiguous chunks, then run the message
drain when progress was made. -/
def flushPending (st : RecvState) :
    Option String × List ReceivedMessage × RecvState :=
  match flushLoop (st.pending.length + 1) st.expected st.pending st false with
  | (st', progressed) =>
    if progressed then drainMessages st' [] else (none, [], st')

/-- `ReceiveChannel.handlePacket`. The result record is built up-front with
`accepted := true` and `ackStart := start` and never changed, exactly as in
the source. -/
def handlePacket (start : Int) (payload : List Nat) (st : RecvState) :
    Option String × PendingEntryResult × RecvState :=
  if seqLessThan start st.expected then
    (none, { accepted := true, ackStart := start, messages := [] }, st)
  else if mapHas st.pending start then
    (none, { accepted := true, ackStart := start, messages := [] }, st)
  else
    match flushPending { st with pending := mapSet st.pending start payload } with
    | (err, msgs, st') =>
      (err, { accepted := true, ackStart := start, messages := msgs }, st')

/-- `SequencedChannelPacket` returned by `parseChannelPacket`. -/
structure SequencedChannelPacket where
  channelId : Nat
  start : Int
  payload : List Nat
deriving Repr, DecidableEq

/-- `parseChannelPacket` (src/receiveChannel.ts). `buffer[0]` of an empty
buffer is `undefined` in JS, which fails the three control-id comparisons and
falls through to the length guard; `head?` models that. The constants are
CHANNEL.INIT = 4, CHANNEL.KEEP_ALIVE = 5, CHANNEL.DISCONNECT = 6
(CHANNEL.CONFIRMATION = 3 is not tested by the source). -/
def parseChannelPacket (buffer : List Nat) :
    Except String SequencedChannelPacket :=
  if buffer.head? = some 4 ∨ buffer.head? = some 5 ∨ buffer.head? = some 6 then
    .error "parseChannelPacket received control channel"
  else if buffer.length < 5 then
    .error "Packet too small for sequenced data"
  else
    .ok { channelId := buffer.headD 0, start := readInt32BE buffer 1,
          payload := buffer.drop 5 }

/-! ## SendChannel (src/sendChannel.ts) -/

/-- `MTU` from src/constants.ts. -/
def MTU : Nat := 548

/-- `RESEND_TIMEOUT_MS` from src/constants.ts. -/
def RESEND_TIMEOUT_MS : Int := 500

/-- An `InFlightEntry`. `len` is `payload.length` at emission time. -/
structure InFlightEntry where
  payload : List Nat
  timestamp : Int
  len : Nat
  retries : Nat
deriving Repr, DecidableEq

/-- A `QueuedPacket` returned by `SendChannel.getPacket`. -/
structure QueuedPacket where
  start : Int
  payload : List Nat
  resend : Bool
deriving Repr, DecidableEq

/-- The mutable fields of a `SendChannel`. -/
structure SendState where
  channelId : Nat
  initialSequence : Int
  nextIndex : Int
  fullyConfirmed : Int
  pendingMessages : List (List Nat)
  inFlight : List (Int × InFlightEntry)
  acked : List (Int × Nat)
deriving Repr, DecidableEq

/-- The `SendChannel` constructor: `initialSequence` is normalized with
`toInt32` and seeds both `nextIndex` and `fullyConfirmed`. -/
def freshSend (channelId : Nat) (initialSequence : Int) : SendState :=
  { channelId := channelId, initialSequence := toInt32 initialSequence,
    nextIndex := toInt32 initialSequence, fullyConfirmed := toInt32 initialSequence,
    pendingMessages := [], inFlight := [], acked := [] }

/-- The frame built by `SendChannel.queue`:
`[protocolId][varint(len(payload))][payload]`. `Buffer.from([protocolId])`
truncates the id to a byte, hence the `% 256`. -/
def queueMessage (protocolId : Nat) (payload : List Nat) : List Nat :=
  (protocolId % 256) :: encodeVarInt payload.length ++ payload

/-- `SendChannel.queue`. -/
def queue (protocolId : Nat) (payload : List Nat) (st : SendState) : SendState :=
  { st with pendingMessages := st.pendingMessages ++ [queueMessage protocolId payload] }

/-- `SendChannel.hasWork`. -/
def hasWork (st : SendState) : Bool :=
  !st.pendingMessages.isEmpty || !st.inFlight.isEmpty

/-- The retransmit scan of `getPacket`: walk `inFlight` in insertion order,
pick the first entry due for resend (`now - timestamp >= RESEND_TIMEOUT_MS`),
reset its timestamp, bump its retries; return the chosen `(start, entry)` and
the list with the entry updated in place. -/
def scanResend (now : Int) (inFlight : List (Int × InFlightEntry)) :
    Option (Int × InFlightEntry × List (Int × InFlightEntry)) :=
  match inFlight with
  | [] => none
  | (s, e) :: rest =>
    if RESEND_TIMEOUT_MS ≤ now - e.timestamp then
      let e' := { e with timestamp := now, retries := e.retries + 1 }
      some (s, e', (s, e') :: rest)
    else
      match scanResend now rest with
      | some (s', e', rest') => some (s', e', (s, e) :: rest')
      | none => none

/-- `SendChannel.getPacket`. The `shift()` of the head message happens before
the MTU guard, so on a `Message exceeds MTU allowance` throw the popped
message is already gone from `pendingMessages`. The source's `if (!message)`
test is omitted: `shift()` of a non-empty array of Buffers is never falsy. -/
def getPacket (now : Int) (st : SendState) :
    Option String × Option QueuedPacket × SendState :=
  match scanResend now st.inFlight with
  | some (s, e', inFlight') =>
    (none, some { start := s, payload := e'.payload, resend := true },
     { st with inFlight := inFlight' })
  | none =>
    match st.pendingMessages with
    | [] => (none, none, st)
    | message :: restMessages =>
      if MTU - 5 < message.length then
        (some "Message exceeds MTU allowance for a single packet", none,
         { st with pendingMessages := restMessages })
      else
        let start := st.nextIndex
        let entry : InFlightEntry :=
          { payload := message, timestamp := now, len := message.length,
            retries := 0 }
        (none, some { start := start, payload := message, resend := false },
         { st with
             pendingMessages := restMessages,
             inFlight := mapSet st.inFlight start entry,
             nextIndex := addSeq st.nextIndex (message.length : Int) })

/-- The while-loop of `advanceAcks`: while `fullyConfirmed` is a key of
`acked`, delete it; a zero recorded length stops the advance, a positive one
moves `fullyConfirmed` forward by that many bytes. The fuel never runs out:
every iteration deletes one entry of `acked`, so `acked.length + 1` bounds
the iteration count from the call site. -/
def advanceAcksLoop (fuel : Nat) (fullyConfirmed : Int) (acked : List (Int × Nat)) :
    Int × List (Int × Nat) :=
  match fuel with
  | 0 => (fullyConfirmed, acked)
  | fuel + 1 =>
    match mapGet acked fullyConfirmed with
    | none => (fullyConfirmed, acked)
    | some len =>
      let acked' := mapDelete acked fullyConfirmed
      if len = 0 then (fullyConfirmed, acked')
      else advanceAcksLoop fuel (addSeq fullyConfirmed (len : Int)) acked'

/-- `advanceAcks` applied to the channel state. -/
def advanceAcks (st : SendState) : SendState :=
  match advanceAcksLoop (st.acked.length + 1) st.fullyConfirmed st.acked with
  | (fc', acked') => { st with fullyConfirmed := fc', acked := acked' }

/-- `SendChannel.handleAck`. -/
def handleAck (start : Int) (st : SendState) : SendState :=
  match mapGet st.inFlight start with
  | some entry =>
    advanceAcks { st with
                    inFlight := mapDelete st.inFlight start,
                    acked := mapSet st.acked start entry.len }
  | none =>
    if mapHas st.acked start then advanceAcks st
    else advanceAcks { st with acked := mapSet st.acked start 0 }

/-- One public operation on a `SendChannel`, for claims quantified over
operation sequences. `getPacket`'s output (and a possible throw) is dropped:
the channel state is what the invariant speaks about, and a throw leaves the
channel exactly in the state the model returns. -/
inductive SendOp where
  | queue (protocolId : Nat) (payload : List Nat)
  | getPacket (now : Int)
  | handleAck (start : Int)
deriving Repr, DecidableEq

/-- Apply one operation to the channel state. -/
def applySendOp (st : SendState) (op : SendOp) : SendState :=
  match op with
  | .queue protocolId payload => queue protocolId payload st
  | .getPacket now => (getPacket now st).2.2
  | .handleAck start => handleAck start st

/-- Run a sequence of operations from a state. -/
def runSend (ops : List SendOp) (st : SendState) : SendState :=
  ops.foldl applySendOp st

/-- Run a sequence of `handlePacket` calls on a `ReceiveChannel`; a thrown
decode error is caught by the caller (the Connection logs it), so the state
mutations made before the throw persist and the run continues. -/
def runRecv (ops : List (Int × List Nat)) (st : RecvState) : RecvState :=
  ops.foldl (fun s p => (handlePacket p.1 p.2 s).2.2) st

/-! ## Connection (src/connection.ts)

The slice of `CubyzConnection` the claims are about: the tick loop, close
and disconnect logic, the confirmation queue and inbound sequenced-packet
dispatch. The UDP socket is an output list of datagrams (byte lists, built
exactly as the source builds its Buffers), the event emitter an output list
of events. The application-level protocol handlers reached through
`handleProtocol` (handshake, chat, entity parsing) are outside the core
(spec section 1 treats event delivery as an abstract sink): the messages
passed to them are returned as the forwarded-message list, and none of those
handlers touches the confirmation queue or the receive channels. -/

/-- `KEEP_ALIVE_INTERVAL_MS` from src/constants.ts. -/
def KEEP_ALIVE_INTERVAL_MS : Int := 2000

/-- `KEEP_ALIVE_TIMEOUT_MS = KEEP_ALIVE_INTERVAL_MS * 4`. -/
def KEEP_ALIVE_TIMEOUT_MS : Int := KEEP_ALIVE_INTERVAL_MS * 4

/-- `INIT_RESEND_INTERVAL_MS` from src/constants.ts. -/
def INIT_RESEND_INTERVAL_MS : Int := 100

/-- `CONFIRMATION_BATCH_SIZE` from src/constants.ts. -/
def CONFIRMATION_BATCH_SIZE : Nat := 16

/-- Big-endian byte expansion: the low `n` bytes of `v`, most significant
first (what Node's `write...BE` helpers store). -/
def beBytes : Nat → Nat → List Nat
  | 0, _ => []
  | n + 1, v => beBytes n (v / 256) ++ [v % 256]

/-- `writeInt32BE`: `toInt32` then the 4-byte two's-complement big-endian
image, i.e. the bytes of `v mod 2^32`. -/
def int32be (v : Int) : List Nat :=
  beBytes 4 (v % 2 ^ 32).toNat

/-- `writeBigInt64BE`: the 8-byte two's-complement big-endian image. -/
def int64be (v : Int) : List Nat :=
  beBytes 8 (v % 2 ^ 64).toNat

/-- The connection phases (`ConnectionState` in the source). -/
inductive ConnPhase where
  | awaitingServer
  | connected
  | closing
  | closed
deriving Repr, DecidableEq

/-- `DisconnectEvent` reasons. -/
inductive DisconnectReason where
  | server
  | timeout
deriving Repr, DecidableEq

/-- The events the modelled slice emits (the tick path emits only
`disconnect`; `connected`, `chat` and the rest arise in the handshake and
application handlers outside the slice). -/
inductive ConnEvent where
  | disconnect (reason : DisconnectReason)
deriving Repr, DecidableEq

/-- A `PendingConfirmation`. -/
structure PendingConfirmation where
  channelId : Nat
  start : Int
  timestamp : Int
deriving Repr, DecidableEq

/-- The fields of `CubyzConnection` the modelled slice reads or writes. -/
structure ConnState where
  connectionId : Int
  phase : ConnPhase
  lastInbound : Int
  lastKeepAliveSent : Int
  lastInitSent : Int
  initSent : Bool
  disconnectSent : Bool
  disconnectEmitted : Bool
  pendingConfirmations : List PendingConfirmation
  recvChannels : List (Nat × RecvState)
  sendLossy : SendState
  sendFast : SendState
  sendSlow : SendState
deriving Repr, DecidableEq

/-- `emitDisconnect`: edge-triggered once via `disconnectEmitted`. -/
def emitDisconnect (reason : DisconnectReason) (st : ConnState) :
    ConnState × List ConnEvent :=
  if st.disconnectEmitted then (st, [])
  else ({ st with disconnectEmitted := true }, [.disconnect reason])

/-- The `finalize` closure of `close`: clear the timers, mark the state
closed, close the socket; idempotent. -/
def closeFinalize (st : ConnState) : ConnState :=
  if st.phase = .closed then st else { st with phase := .closed }

/-- `close(options)`. `sendDisconnectPacket` emits the one-byte DISCONNECT
datagram `[6]` at most once (`disconnectSent`); its send-completion callback
runs `finalize`, modelled as immediate completion. -/
def close (notify : Bool) (st : ConnState) : ConnState × List (List Nat) :=
  if st.phase = .closed ∨ st.phase = .closing then (st, [])
  else
    let st1 := { st with phase := ConnPhase.closing }
    if notify then
      if st1.disconnectSent then (closeFinalize st1, [])
      else (closeFinalize { st1 with disconnectSent := true }, [[6]])
    else (closeFinalize st1, [])

/-- `queueConfirmation`: push `{channelId, start, timestamp: Date.now()}`. -/
def queueConfirmation (channelId : Nat) (start : Int) (now : Int)
    (st : ConnState) : ConnState :=
  { st with pendingConfirmations := st.pendingConfirmations ++
      [{ channelId := channelId, start := start, timestamp := now }] }

/-- `sendKeepAlive`: stamp the clock, emit the one-byte datagram `[5]`. -/
def sendKeepAlive (now : Int) (st : ConnState) : ConnState × List (List Nat) :=
  ({ st with lastKeepAliveSent := now }, [[5]])

/-- `sendInit`: stamp the clock, emit
`[4][connectionId: i64 BE][3 x initial sequence: i32 BE]`, set `initSent`. -/
def sendInit (now : Int) (st : ConnState) : ConnState × List (List Nat) :=
  ({ st with lastInitSent := now, initSent := true },
   [4 :: int64be st.connectionId ++ int32be st.sendLossy.initialSequence ++
      int32be st.sendFast.initialSequence ++ int32be st.sendSlow.initialSequence])

/-- One confirmation entry's 7 wire bytes: channel id byte, half the age in
milliseconds clamped to a u16, the start big-endian. -/
def confirmationEntryBytes (now : Int) (e : PendingConfirmation) : List Nat :=
  let dt := now - e.timestamp
  let half := max 0 (min 65535 (dt / 2))
  e.channelId % 256 :: beBytes 2 half.toNat ++ int32be e.start

/-- `flushConfirmations`: splice off a batch of at most
`CONFIRMATION_BATCH_SIZE` entries and emit one `[3]`-headed datagram. -/
def flushConfirmations (now : Int) (st : ConnState) : ConnState × List (List Nat) :=
  if st.pendingConfirmations.isEmpty then (st, [])
  else
    let batch := st.pendingConfirmations.take CONFIRMATION_BATCH_SIZE
    let rest := st.pendingConfirmations.drop CONFIRMATION_BATCH_SIZE
    ({ st with pendingConfirmations := rest },
     [3 :: (batch.map (confirmationEntryBytes now)).flatten])

/-- One channel's turn inside `flushSendQueues`: skip an idle channel, else
ask for a packet and emit `[channelId][start: i32 BE][payload]`. -/
def flushOne (now : Int) (ch : SendState) :
    Option String × SendState × List (List Nat) :=
  if hasWork ch then
    match getPacket now ch with
    | (some e, _, ch') => (some e, ch', [])
    | (none, none, ch') => (none, ch', [])
    | (none, some pkt, ch') =>
      (none, ch', [ch.channelId % 256 :: int32be pkt.start ++ pkt.payload])
  else (none, ch, [])

/-- `flushSendQueues`: the three channels in `Object.values` order (LOSSY,
FAST, SLOW); a `getPacket` throw aborts the loop and propagates. -/
def flushSendQueues (now : Int) (st : ConnState) :
    Option String × ConnState × List (List Nat) :=
  match flushOne now st.sendLossy with
  | (some e, lossy', _) => (some e, { st with sendLossy := lossy' }, [])
  | (none, lossy', dg1) =>
    match flushOne now st.sendFast with
    | (some e, fast', _) =>
      (some e, { st with sendLossy := lossy', sendFast := fast' }, dg1)
    | (none, fast', dg2) =>
      match flushOne now st.sendSlow with
      | (some e, slow', _) =>
        (some e,
         { st with sendLossy := lossy', sendFast := fast', sendSlow := slow' },
         dg1 ++ dg2)
      | (none, slow', dg3) =>
        (none,
         { st with sendLossy := lossy', sendFast := fast', sendSlow := slow' },
         dg1 ++ dg2 ++ dg3)

/-- `tick`: INIT resend while awaiting the server; keep-alive timeout check
(which closes without notifying and returns early); periodic keep-alive;
confirmation flush; send-queue flush. -/
def tick (now : Int) (st : ConnState) :
    Option String × ConnState × List ConnEvent × List (List Nat) :=
  let (st1, dgInit) :=
    if st.phase = .awaitingServer ∧
        (st.initSent = false ∨ INIT_RESEND_INTERVAL_MS ≤ now - st.lastInitSent)
    then sendInit now st else (st, [])
  if st1.phase = .connected ∧ KEEP_ALIVE_TIMEOUT_MS ≤ now - st1.lastInbound then
    let (st2, events) := emitDisconnect .timeout st1
    let (st3, dgClose) := close false st2
    (none, st3, events, dgInit ++ dgClose)
  else
    let (st2, dgKeepAlive) :=
      if KEEP_ALIVE_INTERVAL_MS ≤ now - st1.lastKeepAliveSent
      then sendKeepAlive now st1 else (st1, [])
    let (st3, dgConf) := flushConfirmations now st2
    match flushSendQueues now st3 with
    | (err, st4, dgSend) =>
      (err, st4, [], dgInit ++ dgKeepAlive ++ dgConf ++ dgSend)

/-- `handleSequencedPacket`: parse, route to the receive channel if one
exists (none exist before the peer's INIT), queue one confirmation when the
result is accepted, and hand the decoded messages to `handleProtocol` (the
application sink; returned here as the forwarded list). A decode throw
propagates to the caller, which logs it: no confirmation is queued, but the
receive channel keeps the mutations made before the throw. -/
def handleSequencedPacket (now : Int) (buffer : List Nat) (st : ConnState) :
    Option String × ConnState × List ReceivedMessage :=
  match parseChannelPacket buffer with
  | .error e => (some e, st, [])
  | .ok parsed =>
    match mapGet st.recvChannels parsed.channelId with
    | none => (none, st, [])
    | some channel =>
      match handlePacket parsed.start parsed.payload channel with
      | (some e, _, channel') =>
        (some e,
         { st with recvChannels := mapSet st.recvChannels parsed.channelId channel' },
         [])
      | (none, result, channel') =>
        let st1 :=
          { st with recvChannels := mapSet st.recvChannels parsed.channelId channel' }
        if result.accepted then
          (none, queueConfirmation parsed.channelId result.ackStart now st1,
           result.messages)
        else (none, st1, [])

/-! ## Concrete inputs and operation runners used by the claims -/

/-- Run `handlePacket` calls, collecting every call's decoded messages in
order (what the Connection forwards to the application sink). -/
def runRecvMessages (ops : List (Int × List Nat)) (st : RecvState) :
    List ReceivedMessage × RecvState :=
  ops.foldl
    (fun acc p =>
      match handlePacket p.1 p.2 acc.2 with
      | (_, result, st') => (acc.1 ++ result.messages, st'))
    ([], st)

/-- The three packets of the spec's out-of-order reassembly scenario. -/
def c2Ops : List (Int × List Nat) :=
  [(10, [0xDD, 0xEE]), (0, [0x07, 0x04, 0xAA, 0xBB]), (4, [0xCC, 0xDD, 0x00, 0x00])]

/-- A connected `ConnState` with one receive channel (id 0, expected 0) and
nothing else pending, for the confirmation-counting scenarios. -/
def c3Conn : ConnState :=
  { connectionId := 0, phase := .connected, lastInbound := 0,
    lastKeepAliveSent := 0, lastInitSent := 0, initSent := true,
    disconnectSent := false, disconnectEmitted := false,
    pendingConfirmations := [], recvChannels := [(0, freshRecv 0 0)],
    sendLossy := freshSend 0 0, sendFast := freshSend 1 1, sendSlow := freshSend 2 2 }

/-- `k` rounds of queueing a maximal (543-byte) frame and emitting it at
`now = 0`: each round advances `nextIndex` by 543 bytes while no ack ever
arrives, so `fullyConfirmed` stays put. -/
def c6Pattern : Nat → List SendOp
  | 0 => []
  | k + 1 =>
    SendOp.queue 7 (List.replicate 540 0) :: SendOp.getPacket 0 :: c6Pattern k

/-- Rounds needed to push `543 * k` past `2^31`. -/
def c6Rounds : Nat := 3954961

/-- No call's start falls strictly inside another call's payload byte range:
the well-formedness a conforming sender guarantees, under which the
receive-side pending-key invariant holds (C7). -/
def NoOverlap (ops : List (Int × List Nat)) : Prop :=
  ∀ p ∈ ops, ∀ q ∈ ops,
    ¬(0 < toInt32 (q.1 - p.1) ∧ toInt32 (q.1 - p.1) < (p.2.length : Int))

/-- The receive-side invariant tied to a fixed call list: `expected` is a
normalized int32, and every pending entry has a normalized key not below
`expected` under signed comparison, comes from the call list, and pending
keys are distinct. -/
def RecvInv (ops : List (Int × List Nat)) (st : RecvState) : Prop :=
  toInt32 st.expected = st.expected ∧
  (∀ kv ∈ st.pending,
    toInt32 kv.1 = kv.1 ∧ seqLessThan kv.1 st.expected = false ∧ kv ∈ ops) ∧
  (st.pending.map Prod.fst).Nodup

/-- Send-side ghost invariant: after some operations, `C` bytes of the
emitted stream are confirmed and `B` bytes have been emitted in total:
`fullyConfirmed` and `nextIndex` sit at those offsets from the (normalized)
initial sequence, every positive-length acked record and every in-flight
entry covers a sub-range of the emitted `[0, B)` bytes. -/
def SendInv (init : Int) (C B : Nat) (st : SendState) : Prop :=
  st.fullyConfirmed = toInt32 (init + C) ∧
  st.nextIndex = toInt32 (init + B) ∧
  C ≤ B ∧
  (∀ kv ∈ st.acked, 0 < kv.2 → ∃ D : Nat, kv.1 = toInt32 (init + D) ∧ D + kv.2 ≤ B) ∧
  (∀ kv ∈ st.inFlight, ∃ D : Nat, kv.1 = toInt32 (init + D) ∧ D + kv.2.len ≤ B)

/-! ## Helper lemmas -/

set_option maxRecDepth 100000

theorem toInt32_idem (v : Int) : toInt32 (toInt32 v) = toInt32 v := by
  unfold toInt32; omega

theorem toInt32_ub (v : Int) : toInt32 v < 2 ^ 31 := by
  unfold toInt32; omega

theorem toInt32_eq_zero_eq (x y : Int) (hx : toInt32 x = x) (hy : toInt32 y = y)
    (h : toInt32 (x - y) = 0) : x = y := by
  unfold toInt32 at hx hy h; omega

theorem toInt32_small (v : Int) (h1 : -(2 ^ 31) ≤ v) (h2 : v < 2 ^ 31) :
    toInt32 v = v := by
  unfold toInt32; omega

theorem toInt32_sub_sub (x e len : Int) (d : Int)
    (hd : toInt32 (x - e) = d) :
    toInt32 (x - toInt32 (e + len)) = toInt32 (d - len) := by
  unfold toInt32 at hd ⊢; omega

theorem mapGet_mem {κ α : Type} [DecidableEq κ] (m : List (κ × α)) (k : κ) (v : α)
    (h : mapGet m k = some v) : (k, v) ∈ m := by
  induction m with
  | nil => simp [mapGet] at h
  | cons p rest ih =>
    obtain ⟨a, b⟩ := p
    by_cases hk : a = k
    · subst hk
      simp [mapGet, List.find?_cons] at h
      simp [h]
    · simp [mapGet, List.find?_cons, hk] at h
      exact List.mem_cons_of_mem _ (ih (by simpa [mapGet] using h))

theorem mapDelete_sublist {κ α : Type} [DecidableEq κ] (m : List (κ × α)) (k : κ) :
    (mapDelete m k).Sublist m := by
  induction m with
  | nil => simp [mapDelete]
  | cons p rest ih =>
    obtain ⟨a, b⟩ := p
    by_cases hk : a = k
    · simpa [mapDelete, hk] using List.sublist_cons_self (a, b) rest
    · simpa [mapDelete, hk] using ih.cons₂ (a, b)

theorem mem_mapDelete_ne {κ α : Type} [DecidableEq κ] (m : List (κ × α)) (k : κ)
    (hnd : (m.map Prod.fst).Nodup) (kv : κ × α) (h : kv ∈ mapDelete m k) :
    kv ∈ m ∧ kv.1 ≠ k := by
  induction m with
  | nil => simp [mapDelete] at h
  | cons p rest ih =>
    obtain ⟨a, b⟩ := p
    have hnd' : a ∉ rest.map Prod.fst ∧ (rest.map Prod.fst).Nodup := by
      simpa using hnd
    by_cases hk : a = k
    · subst hk
      simp [mapDelete] at h
      refine ⟨List.mem_cons_of_mem _ h, fun hkv => ?_⟩
      exact hnd'.1 (hkv ▸ List.mem_map_of_mem Prod.fst h)
    · simp only [mapDelete, if_neg hk] at h
      rcases List.mem_cons.mp h with rfl | h
      · exact ⟨List.mem_cons_self _ _, hk⟩
      · obtain ⟨hm, hne⟩ := ih hnd'.2 h
        exact ⟨List.mem_cons_of_mem _ hm, hne⟩

theorem mapHas_false_iff {κ α : Type} [DecidableEq κ] (m : List (κ × α)) (k : κ) :
    mapHas m k = false ↔ ∀ kv ∈ m, kv.1 ≠ k := by
  simp [mapHas, List.any_eq_false]

theorem mapSet_of_not_has {κ α : Type} [DecidableEq κ] (m : List (κ × α)) (k : κ)
    (v : α) (h : mapHas m k = false) : mapSet m k v = m ++ [(k, v)] := by
  induction m with
  | nil => simp [mapSet]
  | cons p rest ih =>
    obtain ⟨a, b⟩ := p
    rw [mapHas_false_iff] at h
    have ha : a ≠ k := h (a, b) (List.mem_cons_self _ _)
    have hr : mapHas rest k = false :=
      (mapHas_false_iff _ _).mpr (fun kv hm => h kv (List.mem_cons_of_mem _ hm))
    simp [mapSet, ha, ih hr]

theorem drainMessages_fields (st : RecvState) (c : List ReceivedMessage) :
    (drainMessages st c).2.2.pending = st.pending ∧
    (drainMessages st c).2.2.expected = st.expected := by
  unfold drainMessages
  rcases drainLoop (st.bufferedLength + 2) st.chunks st.bufferedLength
    st.partialHeader c with ⟨e, m, ch, b, h⟩
  simp

theorem RecvInv_of_fields (ops : List (Int × List Nat)) {st st' : RecvState}
    (hp : st'.pending = st.pending) (he : st'.expected = st.expected)
    (h : RecvInv ops st) : RecvInv ops st' := by
  obtain ⟨h1, h2, h3⟩ := h
  exact ⟨he ▸ h1, by rw [hp, he]; exact h2, hp ▸ h3⟩

theorem flushLoop_inv (ops : List (Int × List Nat)) (hno : NoOverlap ops)
    (fuel : Nat) :
    ∀ (expected : Int) (pending : List (Int × List Nat)) (st : RecvState)
      (progressed : Bool),
    toInt32 expected = expected →
    (∀ kv ∈ pending,
      toInt32 kv.1 = kv.1 ∧ seqLessThan kv.1 expected = false ∧ kv ∈ ops) →
    (pending.map Prod.fst).Nodup →
    RecvInv ops (flushLoop fuel expected pending st progressed).1 := by
  induction fuel with
  | zero =>
    intro expected pending st progressed hexp hpend hnd
    exact ⟨hexp, hpend, hnd⟩
  | succ fuel ih =>
    intro expected pending st progressed hexp hpend hnd
    rcases hget : mapGet pending expected with _ | chunk
    · simp only [flushLoop, hget]
      exact ⟨hexp, hpend, hnd⟩
    · simp only [flushLoop, hget]
      have hmem : (expected, chunk) ∈ pending := mapGet_mem pending expected chunk hget
      have hops : (expected, chunk) ∈ ops := (hpend _ hmem).2.2
      apply ih
      · exact toInt32_idem _
      · intro kv hkv
        obtain ⟨hkv_mem, hkv_ne⟩ := mem_mapDelete_ne pending expected hnd kv hkv
        obtain ⟨hkv32, hkv_ge, hkv_ops⟩ := hpend kv hkv_mem
        refine ⟨hkv32, ?_, hkv_ops⟩
        have hno' := hno (expected, chunk) hops kv hkv_ops
        set d := toInt32 (kv.1 - expected) with hd
        have hd_nonneg : 0 ≤ d := by
          simp [seqLessThan] at hkv_ge
          omega
        have hd_ne : d ≠ 0 := fun h0 =>
          hkv_ne (toInt32_eq_zero_eq kv.1 expected hkv32 hexp h0)
        have hd_ge : (chunk.length : Int) ≤ d := by
          simp only at hno'
          omega
        have hd_ub : d < 2 ^ 31 := hd ▸ toInt32_ub _
        have hshift : toInt32 (kv.1 - addSeq expected (chunk.length : Int))
            = d - chunk.length := by
          rw [addSeq, toInt32_sub_sub kv.1 expected (chunk.length : Int) d hd.symm]
          exact toInt32_small _ (by omega) (by omega)
        simp [seqLessThan, hshift]
        omega
      · exact (mapDelete_sublist pending expected).map Prod.fst |>.nodup hnd

theorem flushPending_inv (ops : List (Int × List Nat)) (hno : NoOverlap ops)
    (st : RecvState)
    (hexp : toInt32 st.expected = st.expected)
    (hpend : ∀ kv ∈ st.pending,
      toInt32 kv.1 = kv.1 ∧ seqLessThan kv.1 st.expected = false ∧ kv ∈ ops)
    (hnd : (st.pending.map Prod.fst).Nodup) :
    RecvInv ops (flushPending st).2.2 := by
  unfold flushPending
  rcases hfl : flushLoop (st.pending.length + 1) st.expected st.pending st false
    with ⟨st', prog⟩
  have hinv' : RecvInv ops st' := by
    have h := flushLoop_inv ops hno (st.pending.length + 1) st.expected st.pending
      st false hexp hpend hnd
    rwa [hfl] at h
  cases prog with
  | false => simpa using hinv'
  | true =>
    simpa using RecvInv_of_fields ops (drainMessages_fields st' []).1
      (drainMessages_fields st' []).2 hinv'

theorem handlePacket_inv (ops : List (Int × List Nat)) (hno : NoOverlap ops)
    (s : Int) (p : List Nat) (hs : toInt32 s = s) (hmem : (s, p) ∈ ops)
    (st : RecvState) (hinv : RecvInv ops st) :
    RecvInv ops (handlePacket s p st).2.2 := by
  obtain ⟨hexp, hpend, hnd⟩ := hinv
  unfold handlePacket
  by_cases h1 : seqLessThan s st.expected
  · simpa [h1] using ⟨hexp, hpend, hnd⟩
  · by_cases h2 : mapHas st.pending s
    · simp only [h1, h2]
      simpa using ⟨hexp, hpend, hnd⟩
    · simp only [h1, h2, Bool.false_eq_true, if_false]
      have hset := mapSet_of_not_has st.pending s p (by simpa using h2)
      rcases hfp : flushPending { st with pending := mapSet st.pending s p }
        with ⟨err, msgs, st'⟩
      have hres := flushPending_inv ops hno
        { st with pending := mapSet st.pending s p }
        (by simpa using hexp)
        (by
          simp only [hset]
          intro kv hkv
          rcases List.mem_append.mp hkv with hm | hm
          · exact hpend kv hm
          · simp at hm
            subst hm
            exact ⟨hs, by simpa using h1, hmem⟩)
        (by
          simp only [hset, List.map_append]
          refine List.Nodup.append hnd (by simp) ?_
          intro a ha hb
          simp at hb
          have h2f : mapHas st.pending s = false := by simpa using h2
          rw [mapHas_false_iff] at h2f
          obtain ⟨kv, hkv, hfst⟩ := List.mem_map.mp ha
          exact h2f kv hkv (hb ▸ hfst))
      rw [hfp] at hres
      simpa using hres

theorem runRecv_inv (ops : List (Int × List Nat)) (hno : NoOverlap ops) :
    ∀ (l : List (Int × List Nat)) (st : RecvState),
      (∀ q ∈ l, q ∈ ops ∧ toInt32 q.1 = q.1) →
      RecvInv ops st → RecvInv ops (runRecv l st) := by
  intro l
  induction l with
  | nil => intro st _ h; simpa [runRecv] using h
  | cons x xs ih =>
    intro st hl hinv
    have hx := hl x (List.mem_cons_self _ _)
    have hstep : RecvInv ops (handlePacket x.1 x.2 st).2.2 :=
      handlePacket_inv ops hno x.1 x.2 hx.2 (by simpa using hx.1) st hinv
    simpa [runRecv] using
      ih ((handlePacket x.1 x.2 st).2.2) (fun q hq => hl q (List.mem_cons_of_mem _ hq))
        hstep

theorem handlePacket_accepted (start : Int) (payload : List Nat) (st : RecvState) :
    (handlePacket start payload st).2.1.accepted = true := by
  unfold handlePacket
  by_cases h1 : seqLessThan start st.expected
  · simp [h1]
  · by_cases h2 : mapHas st.pending start
    · simp [h1, h2]
    · simp only [h1, h2]
      rcases hf : flushPending { st with pending := mapSet st.pending start payload }
        with ⟨e, m, s⟩
      simp [hf]

theorem handlePacket_ackStart (start : Int) (payload : List Nat) (st : RecvState) :
    (handlePacket start payload st).2.1.ackStart = start := by
  unfold handlePacket
  by_cases h1 : seqLessThan start st.expected
  · simp [h1]
  · by_cases h2 : mapHas st.pending start
    · simp [h1, h2]
    · simp only [h1, h2]
      rcases hf : flushPending { st with pending := mapSet st.pending start payload }
        with ⟨e, m, s⟩
      simp [hf]

theorem peekByte_single (l : List Nat) (i : Nat) (h : i < l.length) :
    peekByte [{ buffer := l, offset := 0 }] i = some (l.getD i 0) := by
  simp [peekByte, h]

theorem encodeVarInt_small (n : Nat) (h : n < 128) : encodeVarInt n = [n] := by
  have h32 : n % 4294967296 = n := Nat.mod_eq_of_lt (by omega)
  simp [encodeVarInt, h32, encodeVarIntLoop, Nat.div_eq_of_lt h, Nat.mod_eq_of_lt h]

theorem land128_eq_zero (n : Nat) (h : n < 128) : n &&& 128 = 0 := by
  have h128 : (128 : Nat) = 2 ^ 7 := by norm_num
  rw [h128, Nat.and_two_pow]
  have ht : n.testBit 7 = false := Nat.testBit_lt_two_pow (by omega)
  simp [ht]

theorem seqLessThan_self (a : Int) : seqLessThan a a = false := by
  simp [seqLessThan, toInt32]

/-- The `peekHeader` varint loop throws when six continuation bytes are
buffered at offsets 1 through 6. -/
theorem peekHeaderLoop_sixContinuation
    (protocolId b1 b2 b3 b4 b5 b6 : Nat) (rest : List Nat)
    (h1 : b1 &&& 128 ≠ 0) (h2 : b2 &&& 128 ≠ 0) (h3 : b3 &&& 128 ≠ 0)
    (h4 : b4 &&& 128 ≠ 0) (h5 : b5 &&& 128 ≠ 0) (h6 : b6 &&& 128 ≠ 0) :
    peekHeaderLoop 7
      [{ buffer := protocolId :: b1 :: b2 :: b3 :: b4 :: b5 :: b6 :: rest, offset := 0 }]
      (rest.length + 7) 0 0
      = (some "Protocol length varint exceeds expected size", none) := by
  have e1 : peekByte [{ buffer := protocolId :: b1 :: b2 :: b3 :: b4 :: b5 :: b6 :: rest, offset := 0 }] 1 = some b1 := by
    rw [peekByte_single _ _ (by simp)]; rfl
  have e2 : peekByte [{ buffer := protocolId :: b1 :: b2 :: b3 :: b4 :: b5 :: b6 :: rest, offset := 0 }] 2 = some b2 := by
    rw [peekByte_single _ _ (by simp)]; rfl
  have e3 : peekByte [{ buffer := protocolId :: b1 :: b2 :: b3 :: b4 :: b5 :: b6 :: rest, offset := 0 }] 3 = some b3 := by
    rw [peekByte_single _ _ (by simp)]; rfl
  have e4 : peekByte [{ buffer := protocolId :: b1 :: b2 :: b3 :: b4 :: b5 :: b6 :: rest, offset := 0 }] 4 = some b4 := by
    rw [peekByte_single _ _ (by simp)]; rfl
  have e5 : peekByte [{ buffer := protocolId :: b1 :: b2 :: b3 :: b4 :: b5 :: b6 :: rest, offset := 0 }] 5 = some b5 := by
    rw [peekByte_single _ _ (by simp)]; rfl
  have e6 : peekByte [{ buffer := protocolId :: b1 :: b2 :: b3 :: b4 :: b5 :: b6 :: rest, offset := 0 }] 6 = some b6 := by
    rw [peekByte_single _ _ (by simp)]; rfl
  simp [peekHeaderLoop, e1, e2, e3, e4, e5, e6, h1, h2, h3, h4, h5, h6,
    Nat.not_le.mpr, show ¬(rest.length + 7 ≤ 1 + 0) by omega,
    show ¬(rest.length + 7 ≤ 1 + 1) by omega,
    show ¬(rest.length + 7 ≤ 1 + 2) by omega,
    show ¬(rest.length + 7 ≤ 1 + 3) by omega,
    show ¬(rest.length + 7 ≤ 1 + 4) by omega,
    show ¬(rest.length + 7 ≤ 1 + 5) by omega,
    show ¬(rest.length + 7 < 1 + 1) by omega,
    show ¬(rest.length + 7 < 1 + 2) by omega,
    show ¬(rest.length + 7 < 1 + 3) by omega,
    show ¬(rest.length + 7 < 1 + 4) by omega,
    show ¬(rest.length + 7 < 1 + 5) by omega]

/-- Round trip of a queued frame with a non-empty body shorter than 128
bytes through a fresh ReceiveChannel at its expected sequence. -/
theorem roundtrip_nonempty_body
    (pid : Nat) (hpid : pid < 256) (x : Nat) (xs : List Nat)
    (hlen : (x :: xs).length < 128) (e0 : Int) :
    (handlePacket e0 (queueMessage pid (x :: xs)) (freshRecv 0 e0)).1 = none ∧
    (handlePacket e0 (queueMessage pid (x :: xs)) (freshRecv 0 e0)).2.1.messages
      = [{ protocolId := pid, payload := x :: xs }] := by
  have hq : queueMessage pid (x :: xs) = pid :: (xs.length + 1) :: x :: xs := by
    simp [queueMessage, Nat.mod_eq_of_lt hpid, encodeVarInt_small _ (by simpa using hlen)]
  simp at hlen
  have hpk0 : peekByte [{ buffer := pid :: (xs.length + 1) :: x :: xs, offset := 0 }] 0
      = some pid := by
    rw [peekByte_single _ _ (by simp)]; rfl
  have hpk1 : peekByte [{ buffer := pid :: (xs.length + 1) :: x :: xs, offset := 0 }] 1
      = some (xs.length + 1) := by
    rw [peekByte_single _ _ (by simp)]; rfl
  have hph : peekHeader [{ buffer := pid :: (xs.length + 1) :: x :: xs, offset := 0 }]
      (xs.length + 3)
      = (none, some { protocolId := pid, size := ((xs.length + 1 : Nat) : Int),
                      headerLength := 2 }) := by
    simp [peekHeader, hpk0, hpk1, peekHeaderLoop,
      show ¬(xs.length + 3 ≤ 1 + 0) by omega,
      land128_eq_zero _ (show xs.length + 1 < 128 by omega),
      shl7or, toInt32, Nat.mod_eq_of_lt (show xs.length + 1 < 128 by omega)]
  rw [hq]
  simp [handlePacket, seqLessThan_self, mapHas, mapSet, flushPending, flushLoop,
    mapGet, List.find?, mapDelete, enqueueChunk, freshRecv, drainMessages,
    show (0:Nat) + (xs.length + 3) = xs.length + 3 by omega,
    show xs.length + 3 + 2 = (xs.length + 4) + 1 by omega,
    drainLoop, hph, consumeBytes, consumeLoop,
    show ¬((xs.length + 3 : Int) < 2) by omega,
    show min (xs.length + 3) 2 = 2 by omega,
    show ¬((xs.length : Int) + 1 ≤ 0) by omega,
    show 2 + (xs.length + 1) = xs.length + 1 + 1 + 1 by omega,
    show peekHeader [] 0 = (none, none) by simp [peekHeader]]

/-- Round trip of a queued frame with an empty body. -/
theorem roundtrip_empty_body (pid : Nat) (hpid : pid < 256) (e0 : Int) :
    (handlePacket e0 (queueMessage pid []) (freshRecv 0 e0)).1 = none ∧
    (handlePacket e0 (queueMessage pid []) (freshRecv 0 e0)).2.1.messages
      = [{ protocolId := pid, payload := [] }] := by
  have hq : queueMessage pid [] = [pid, 0] := by
    simp [queueMessage, Nat.mod_eq_of_lt hpid, encodeVarInt_small 0 (by norm_num)]
  have hpk0 : peekByte [{ buffer := [pid, 0], offset := 0 }] 0 = some pid := by
    rw [peekByte_single _ _ (by simp)]; rfl
  have hpk1 : peekByte [{ buffer := [pid, 0], offset := 0 }] 1 = some 0 := by
    rw [peekByte_single _ _ (by simp)]; rfl
  have hph : peekHeader [{ buffer := [pid, 0], offset := 0 }] 2
      = (none, some { protocolId := pid, size := 0, headerLength := 2 }) := by
    simp [peekHeader, hpk0, hpk1, peekHeaderLoop, shl7or, toInt32]
  rw [hq]
  simp [handlePacket, seqLessThan_self, mapHas, mapSet, flushPending, flushLoop,
    mapGet, List.find?, mapDelete, enqueueChunk, freshRecv, drainMessages,
    drainLoop, hph, consumeBytes, consumeLoop,
    show peekHeader [] 0 = (none, none) by simp [peekHeader]]


theorem scanResend_none (now : Int) (fl : List (Int × InFlightEntry))
    (h : ∀ p ∈ fl, now - p.2.timestamp < RESEND_TIMEOUT_MS) :
    scanResend now fl = none := by
  induction fl with
  | nil => rfl
  | cons p rest ih =>
    obtain ⟨a, b⟩ := p
    have hd : ¬RESEND_TIMEOUT_MS ≤ now - b.timestamp := by
      have hm : now - b.timestamp < RESEND_TIMEOUT_MS :=
        h (a, b) (List.mem_cons_self _ _)
      omega
    simp [scanResend, hd, ih (fun q hq => h q (List.mem_cons_of_mem _ hq))]

theorem mem_mapSet {κ α : Type} [DecidableEq κ] (m : List (κ × α)) (k : κ) (v : α)
    (kv : κ × α) (h : kv ∈ mapSet m k v) : kv ∈ m ∨ kv = (k, v) := by
  induction m with
  | nil => simpa [mapSet] using h
  | cons p rest ih =>
    obtain ⟨a, b⟩ := p
    by_cases hk : a = k
    · simp [mapSet, hk] at h
      rcases h with rfl | h
      · exact Or.inr rfl
      · exact Or.inl (List.mem_cons_of_mem _ h)
    · simp only [mapSet, if_neg hk] at h
      rcases List.mem_cons.mp h with rfl | h
      · exact Or.inl (List.mem_cons_self _ _)
      · rcases ih h with h | h
        · exact Or.inl (List.mem_cons_of_mem _ h)
        · exact Or.inr h

theorem toInt32_add_left (a b : Int) : toInt32 (toInt32 a + b) = toInt32 (a + b) := by
  unfold toInt32; omega

theorem toInt32_addnat_inj (init : Int) (c d : Nat)
    (hc : (c : Int) < 2 ^ 31) (hd : (d : Int) < 2 ^ 31)
    (h : toInt32 (init + c) = toInt32 (init + d)) : c = d := by
  unfold toInt32 at h; omega

theorem addSeq_shift (init : Int) (C len : Nat) :
    addSeq (toInt32 (init + C)) len = toInt32 (init + (C + len : Nat)) := by
  unfold addSeq
  rw [toInt32_add_left]
  congr 1
  push_cast
  ring

theorem seqLessThan_toInt32_add_false (init : Int) (c d : Nat) (hcd : c ≤ d)
    (hd : (d : Int) < 2 ^ 31) :
    seqLessThan (toInt32 (init + d)) (toInt32 (init + c)) = false := by
  simp only [seqLessThan, decide_eq_false_iff_not, not_lt]
  unfold toInt32
  omega

theorem c6_pattern_run (k : Nat) :
    ∀ st : SendState,
      st.pendingMessages = [] →
      (∀ p ∈ st.inFlight, p.2.timestamp = 0) →
      toInt32 st.nextIndex = st.nextIndex →
      (runSend (c6Pattern k) st).nextIndex = toInt32 (st.nextIndex + 543 * k) ∧
      (runSend (c6Pattern k) st).fullyConfirmed = st.fullyConfirmed := by
  induction k with
  | zero =>
    intro st h1 h2 h3
    refine ⟨?_, rfl⟩
    simp [c6Pattern, runSend, h3]
  | succ k ih =>
    intro st h1 h2 h3
    have hlen : (queueMessage 7 (List.replicate 540 0)).length = 543 := by decide
    have hscan : scanResend 0 st.inFlight = none :=
      scanResend_none 0 st.inFlight
        (fun p hp => by simp [RESEND_TIMEOUT_MS, h2 p hp])
    have hrun : runSend (c6Pattern (k + 1)) st =
        runSend (c6Pattern k)
          (applySendOp (applySendOp st (SendOp.queue 7 (List.replicate 540 0)))
            (SendOp.getPacket 0)) := by
      simp [c6Pattern, runSend]
    have hq : applySendOp st (SendOp.queue 7 (List.replicate 540 0)) =
        { st with pendingMessages := [queueMessage 7 (List.replicate 540 0)] } := by
      simp [applySendOp, queue, h1]
    have hg : applySendOp
        { st with pendingMessages := [queueMessage 7 (List.replicate 540 0)] }
        (SendOp.getPacket 0) =
        { st with
            pendingMessages := [],
            inFlight := mapSet st.inFlight st.nextIndex
              { payload := queueMessage 7 (List.replicate 540 0), timestamp := 0,
                len := 543, retries := 0 },
            nextIndex := addSeq st.nextIndex 543 } := by
      simp only [applySendOp, getPacket, hscan, hlen, MTU]
      norm_num
    rw [hrun, hq, hg]
    obtain ⟨hni, hfc⟩ := ih
      { st with
          pendingMessages := [],
          inFlight := mapSet st.inFlight st.nextIndex
            { payload := queueMessage 7 (List.replicate 540 0), timestamp := 0,
              len := 543, retries := 0 },
          nextIndex := addSeq st.nextIndex 543 }
      rfl
      (by
        intro p hp
        rcases mem_mapSet _ _ _ p hp with h | h
        · exact h2 p h
        · simp [h])
      (by simp [addSeq, toInt32_idem])
    refine ⟨?_, hfc⟩
    rw [hni]
    simp only [addSeq, toInt32_add_left]
    congr 1
    push_cast
    ring

theorem advanceAcksLoop_inv (init : Int) (B : Nat) (hB : (B : Int) < 2 ^ 31) :
    ∀ (fuel : Nat) (C : Nat) (acked : List (Int × Nat)),
    C ≤ B →
    (∀ kv ∈ acked, 0 < kv.2 → ∃ D : Nat, kv.1 = toInt32 (init + D) ∧ D + kv.2 ≤ B) →
    ∃ C' : Nat, C ≤ C' ∧ C' ≤ B ∧
      (advanceAcksLoop fuel (toInt32 (init + C)) acked).1 = toInt32 (init + C') ∧
      (∀ kv ∈ (advanceAcksLoop fuel (toInt32 (init + C)) acked).2, 0 < kv.2 →
        ∃ D : Nat, kv.1 = toInt32 (init + D) ∧ D + kv.2 ≤ B) := by
  intro fuel
  induction fuel with
  | zero =>
    intro C acked hC hack
    exact ⟨C, le_refl _, hC, rfl, hack⟩
  | succ fuel ih =>
    intro C acked hC hack
    rcases hget : mapGet acked (toInt32 (init + C)) with _ | len
    · refine ⟨C, le_refl _, hC, ?_, ?_⟩
      · simp [advanceAcksLoop, hget]
      · simp only [advanceAcksLoop, hget]
        exact hack
    · have hsub : ∀ kv ∈ mapDelete acked (toInt32 (init + C)), 0 < kv.2 →
          ∃ D : Nat, kv.1 = toInt32 (init + D) ∧ D + kv.2 ≤ B :=
        fun kv hkv => hack kv ((mapDelete_sublist _ _).subset hkv)
      by_cases hz : len = 0
      · subst hz
        refine ⟨C, le_refl _, hC, ?_, ?_⟩
        · simp [advanceAcksLoop, hget]
        · simp only [advanceAcksLoop, hget, if_pos rfl]
          exact hsub
      · have hmem := mapGet_mem _ _ _ hget
        obtain ⟨D, hD, hDB⟩ := hack _ hmem (Nat.pos_of_ne_zero hz)
        have hCD : C = D := by
          refine toInt32_addnat_inj init C D (by exact_mod_cast by omega) ?_ hD
          exact_mod_cast by omega
        obtain ⟨C', hCC', hC'B, hfc', hack'⟩ := ih (C + len)
          (mapDelete acked (toInt32 (init + C))) (by omega) hsub
        refine ⟨C', by omega, hC'B, ?_, ?_⟩
        · simp only [advanceAcksLoop, hget, hz, if_false, addSeq_shift]
          exact hfc'
        · simp only [advanceAcksLoop, hget, hz, if_false, addSeq_shift]
          exact hack'

theorem advanceAcks_inv (init : Int) (C B : Nat) (hB : (B : Int) < 2 ^ 31)
    (st : SendState) (h : SendInv init C B st) :
    ∃ C', SendInv init C' B (advanceAcks st) ∧ C ≤ C' := by
  obtain ⟨hfc, hni, hCB, hack, hfl⟩ := h
  unfold advanceAcks
  rw [hfc]
  obtain ⟨C', hCC', hC'B, hfc', hack'⟩ :=
    advanceAcksLoop_inv init B hB (st.acked.length + 1) C st.acked hCB hack
  rcases hal : advanceAcksLoop (st.acked.length + 1) (toInt32 (init + C)) st.acked
    with ⟨fc', acked'⟩
  rw [hal] at hfc' hack'
  exact ⟨C', ⟨hfc', hni, hC'B, hack', hfl⟩, hCC'⟩

theorem handleAck_inv (init : Int) (start : Int) (st : SendState) (C B : Nat)
    (hB : (B : Int) < 2 ^ 31) (h : SendInv init C B st) :
    ∃ C', SendInv init C' B (handleAck start st) ∧ C ≤ C' := by
  obtain ⟨hfc, hni, hCB, hack, hfl⟩ := h
  unfold handleAck
  rcases hg : mapGet st.inFlight start with _ | entry
  · by_cases hh : mapHas st.acked start
    · simp only [hh, if_true]
      exact advanceAcks_inv init C B hB st ⟨hfc, hni, hCB, hack, hfl⟩
    · simp only [hh, Bool.false_eq_true, if_false]
      refine advanceAcks_inv init C B hB _ ⟨hfc, hni, hCB, ?_, hfl⟩
      intro kv hkv hpos
      rcases mem_mapSet _ _ _ kv hkv with hm | hm
      · exact hack kv hm hpos
      · subst hm; simp at hpos
  · have hment := mapGet_mem _ _ _ hg
    obtain ⟨D, hD, hDB⟩ := hfl _ hment
    refine advanceAcks_inv init C B hB _ ⟨hfc, hni, hCB, ?_, ?_⟩
    · intro kv hkv hpos
      rcases mem_mapSet _ _ _ kv hkv with hm | hm
      · exact hack kv hm hpos
      · subst hm
        exact ⟨D, hD, hDB⟩
    · intro kv hkv
      exact hfl kv ((mapDelete_sublist _ _).subset hkv)

theorem scanResend_mem (now : Int) :
    ∀ (fl : List (Int × InFlightEntry)) (s : Int) (e : InFlightEntry)
      (fl' : List (Int × InFlightEntry)),
    scanResend now fl = some (s, e, fl') →
    ∀ kv ∈ fl', ∃ kv0 ∈ fl, kv.1 = kv0.1 ∧ kv.2.len = kv0.2.len := by
  intro fl
  induction fl with
  | nil => intro s e fl' h; simp [scanResend] at h
  | cons p rest ih =>
    obtain ⟨a, b⟩ := p
    intro s e fl' h
    by_cases hd : RESEND_TIMEOUT_MS ≤ now - b.timestamp
    · simp only [scanResend, if_pos hd, Option.some.injEq] at h
      obtain ⟨rfl, rfl, rfl⟩ := h
      intro kv hkv
      rcases List.mem_cons.mp hkv with rfl | hkv
      · exact ⟨(a, b), List.mem_cons_self _ _, rfl, rfl⟩
      · exact ⟨kv, List.mem_cons_of_mem _ hkv, rfl, rfl⟩
    · simp only [scanResend, if_neg hd] at h
      rcases hrec : scanResend now rest with _ | ⟨s', e', rest'⟩
      · rw [hrec] at h; simp at h
      · rw [hrec] at h
        simp only [Option.some.injEq] at h
        obtain ⟨rfl, rfl, rfl⟩ := h
        intro kv hkv
        rcases List.mem_cons.mp hkv with rfl | hkv
        · exact ⟨(a, b), List.mem_cons_self _ _, rfl, rfl⟩
        · obtain ⟨kv0, hkv0, h1, h2⟩ := ih _ _ _ hrec kv hkv
          exact ⟨kv0, List.mem_cons_of_mem _ hkv0, h1, h2⟩

theorem getPacket_inv (init now : Int) (st : SendState) (C B : Nat)
    (h : SendInv init C B st) :
    ∃ B', SendInv init C B' ((getPacket now st).2.2) ∧ B ≤ B' ∧ B' ≤ B + 543 := by
  obtain ⟨hfc, hni, hCB, hack, hfl⟩ := h
  unfold getPacket
  rcases hs : scanResend now st.inFlight with _ | ⟨s, e, fl'⟩
  · rcases hp : st.pendingMessages with _ | ⟨msg, rest⟩
    · exact ⟨B, ⟨hfc, hni, hCB, hack, hfl⟩, le_refl _, by omega⟩
    · by_cases hm : MTU - 5 < msg.length
      · simp only [if_pos hm]
        exact ⟨B, ⟨hfc, hni, hCB, hack, hfl⟩, le_refl _, by omega⟩
      · simp only [if_neg hm]
        refine ⟨B + msg.length, ⟨hfc, ?_, by omega, ?_, ?_⟩, by omega, ?_⟩
        · simp only [hni, addSeq_shift]
        · intro kv hkv hpos
          obtain ⟨D, hD, hDB⟩ := hack kv hkv hpos
          exact ⟨D, hD, by omega⟩
        · intro kv hkv
          rcases mem_mapSet _ _ _ kv hkv with hkm | hkm
          · obtain ⟨D, hD, hDB⟩ := hfl kv hkm
            exact ⟨D, hD, by omega⟩
          · subst hkm
            refine ⟨B, hni, ?_⟩
            simp
        · simp only [MTU] at hm
          omega
  · refine ⟨B, ⟨hfc, hni, hCB, hack, ?_⟩, le_refl _, by omega⟩
    intro kv hkv
    obtain ⟨kv0, hkv0, h1, h2⟩ := scanResend_mem now st.inFlight s e fl' hs kv hkv
    obtain ⟨D, hD, hDB⟩ := hfl kv0 hkv0
    exact ⟨D, h1 ▸ hD, h2 ▸ hDB⟩

theorem sendStep_inv (init : Int) (op : SendOp) (st : SendState) (C B : Nat)
    (hB : (B : Int) < 2 ^ 31) (h : SendInv init C B st) :
    ∃ C' B', SendInv init C' B' (applySendOp st op) ∧
      C ≤ C' ∧ B ≤ B' ∧ B' ≤ B + 543 := by
  rcases op with ⟨pid, payload⟩ | now | start
  · obtain ⟨hfc, hni, hCB, hack, hfl⟩ := h
    exact ⟨C, B, ⟨hfc, hni, hCB, hack, hfl⟩, le_refl _, le_refl _, by omega⟩
  · obtain ⟨B', hinv, h1, h2⟩ := getPacket_inv init now st C B h
    exact ⟨C, B', hinv, le_refl _, h1, h2⟩
  · obtain ⟨C', hinv, h1⟩ := handleAck_inv init start st C B hB h
    exact ⟨C', B, hinv, h1, le_refl _, by omega⟩

theorem runSend_inv (init : Int) :
    ∀ (l : List SendOp) (st : SendState) (C B k : Nat),
    SendInv init C B st → B ≤ 543 * k → 543 * (k + l.length) < 2 ^ 31 →
    ∃ C' B', SendInv init C' B' (runSend l st) ∧ C ≤ C' ∧
      B' ≤ 543 * (k + l.length) := by
  intro l
  induction l with
  | nil =>
    intro st C B k h hBk hbound
    refine ⟨C, B, by simpa [runSend] using h, le_refl _, ?_⟩
    simpa using hBk
  | cons op rest ih =>
    intro st C B k h hBk hbound
    simp only [List.length_cons] at hbound
    have hB31 : (B : Int) < 2 ^ 31 := by
      have hx : B < 2 ^ 31 := by omega
      exact_mod_cast hx
    obtain ⟨C1, B1, h1, hC1, hB1, hB1h⟩ := sendStep_inv init op st C B hB31 h
    obtain ⟨C', B', h', hC', hB'⟩ := ih (applySendOp st op) C1 B1 (k + 1) h1
      (by omega) (by omega)
    refine ⟨C', B', by simpa [runSend] using h', le_trans hC1 hC', ?_⟩
    simp only [List.length_cons]
    omega

/-! ## The claims -/

set_option maxRecDepth 100000

/-- C10: for every input `(start, payload)` and every channel state,
`ReceiveChannel.handlePacket` returns a result with `accepted = true` and
`ackStart = start` — the `accepted` field is never `false`, so the
Connection's branch that skips the confirmation for a non-accepted packet
(`if (!result.accepted) return`) can never be taken. -/
theorem claim10_handlePacket_always_accepted
    (start : Int) (payload : List Nat) (st : RecvState) :
    (handlePacket start payload st).2.1.accepted = true ∧
    (handlePacket start payload st).2.1.ackStart = start := by
  exact ⟨handlePacket_accepted start payload st, handlePacket_ackStart start payload st⟩

/-- C2, counterexample: the out-of-order reassembly scenario does not yield
the single message `{protocol 7, payload [AA,BB,CC,DD,00,00]}` the claim
describes: the second packet's size varint is `04`, so the frame's body is
only four bytes long. -/
theorem claim2_counterexample :
    (runRecvMessages c2Ops (freshRecv 0 0)).1 ≠
      [{ protocolId := 7, payload := [0xAA, 0xBB, 0xCC, 0xDD, 0x00, 0x00] }] := by
  decide

/-- C2, amended: a ReceiveChannel with `expected = 0` receiving
`(10, [DD,EE])`, `(0, [07,04,AA,BB])`, `(4, [CC,DD,00,00])` emits, over the
three calls, exactly two messages — `{protocol 7, payload [AA,BB,CC,DD]}`
(the four bytes the `04` size varint announces) and `{protocol 0, payload []}`
(decoded from the trailing `00 00`) — leaving no stream bytes buffered, while
the out-of-order packet `(10, [DD,EE])` stays in the pending map. -/
theorem claim2_amended_two_messages :
    (runRecvMessages c2Ops (freshRecv 0 0)).1 =
      [{ protocolId := 7, payload := [0xAA, 0xBB, 0xCC, 0xDD] },
       { protocolId := 0, payload := [] }] ∧
    (runRecvMessages c2Ops (freshRecv 0 0)).2.pending = [(10, [0xDD, 0xEE])] ∧
    (runRecvMessages c2Ops (freshRecv 0 0)).2.bufferedLength = 0 ∧
    (runRecvMessages c2Ops (freshRecv 0 0)).2.expected = 8 := by
  decide

/-- C3, counterexample: a sequenced datagram whose handling decodes zero
messages (channel 0, start 0, empty payload on a fresh channel) still queues
one confirmation entry, where the claim demands zero. -/
theorem claim3_counterexample :
    (handleSequencedPacket 0 [0, 0, 0, 0, 0] c3Conn).2.2 = [] ∧
    (handleSequencedPacket 0 [0, 0, 0, 0, 0] c3Conn).2.1.pendingConfirmations.length
      = 1 := by
  decide

/-- C3, amended: for every inbound sequenced datagram that parses, is routed
to an existing ReceiveChannel and decodes without a thrown error, the
Connection queues exactly one confirmation entry
`{channel_id, ack_start = start}` for the packet — independent of how many
messages (zero or more) the packet's handling decodes — and forwards exactly
the decoded messages. -/
theorem claim3_amended_one_confirmation_per_packet
    (now : Int) (buffer : List Nat) (st : ConnState)
    (parsed : SequencedChannelPacket) (channel : RecvState)
    (hparse : parseChannelPacket buffer = .ok parsed)
    (hchan : mapGet st.recvChannels parsed.channelId = some channel)
    (herr : (handlePacket parsed.start parsed.payload channel).1 = none) :
    (handleSequencedPacket now buffer st).2.1.pendingConfirmations =
      st.pendingConfirmations ++
        [{ channelId := parsed.channelId, start := parsed.start, timestamp := now }] ∧
    (handleSequencedPacket now buffer st).2.2 =
      (handlePacket parsed.start parsed.payload channel).2.1.messages := by
  have hacc := handlePacket_accepted parsed.start parsed.payload channel
  have hack := handlePacket_ackStart parsed.start parsed.payload channel
  rcases hh : handlePacket parsed.start parsed.payload channel with ⟨err, result, channel'⟩
  rw [hh] at herr hacc hack
  simp at herr hacc hack
  subst herr
  simp [handleSequencedPacket, hparse, hchan, hh, hacc, queueConfirmation, hack]

/-- C3, witness: the concrete zero-message packet of the counterexample,
through the amended theorem. -/
theorem claim3_amended_one_confirmation_per_packet_witness :
    (handleSequencedPacket 5 [0, 0, 0, 0, 0] c3Conn).2.1.pendingConfirmations =
      [{ channelId := 0, start := 0, timestamp := 5 }] := by
  have h := claim3_amended_one_confirmation_per_packet 5 [0, 0, 0, 0, 0] c3Conn
    { channelId := 0, start := 0, payload := [] } (freshRecv 0 0)
    (by rfl) (by decide) (by decide)
  simpa [c3Conn] using h.1

/-- C4, counterexample: a 5-byte buffer whose leading byte is the control
channel id 3 (CONFIRMATION) is parsed successfully, where the claim demands a
throw: `parseChannelPacket` only rejects channel ids 4, 5 and 6. -/
theorem claim4_counterexample :
    parseChannelPacket [3, 0, 0, 0, 0] =
      .ok { channelId := 3, start := 0, payload := [] } := by
  rfl

/-- C4, amended: `parseChannelPacket` throws for every buffer whose leading
byte is 4 (INIT), 5 (KEEP_ALIVE) or 6 (DISCONNECT) and for every buffer
shorter than 5 bytes; for every buffer of length at least 5 whose leading
byte is any other value — the sequenced ids 0, 1, 2, but also the
CONFIRMATION id 3 and every id 7 and above — it returns
`{channel_id = buffer[0], start = big-endian i32 at offset 1,
payload = buffer[5..]}`. -/
theorem claim4_amended_parseChannelPacket (buffer : List Nat) :
    (buffer.head? = some 4 ∨ buffer.head? = some 5 ∨ buffer.head? = some 6 →
      ∃ msg, parseChannelPacket buffer = .error msg) ∧
    (buffer.length < 5 → ∃ msg, parseChannelPacket buffer = .error msg) ∧
    (∀ c, buffer.head? = some c → c ≠ 4 → c ≠ 5 → c ≠ 6 → 5 ≤ buffer.length →
      parseChannelPacket buffer =
        .ok { channelId := c, start := readInt32BE buffer 1,
              payload := buffer.drop 5 }) := by
  refine ⟨fun h => ?_, fun h => ?_, fun c hc h4 h5 h6 hlen => ?_⟩
  · exact ⟨"parseChannelPacket received control channel", by simp [parseChannelPacket, h]⟩
  · by_cases hctl : buffer.head? = some 4 ∨ buffer.head? = some 5 ∨ buffer.head? = some 6
    · exact ⟨"parseChannelPacket received control channel",
        by simp [parseChannelPacket, hctl]⟩
    · exact ⟨"Packet too small for sequenced data",
        by simp [parseChannelPacket, hctl, h]⟩
  · have hctl : ¬(buffer.head? = some 4 ∨ buffer.head? = some 5 ∨ buffer.head? = some 6) := by
      rcases buffer with _ | ⟨b, rest⟩
      · simp at hc
      · simp at hc
        subst hc
        simp [h4, h5, h6]
    simp [parseChannelPacket, hctl, Nat.not_lt.mpr hlen, List.headD_eq_head?, hc]
    exact ⟨h4, h5, h6⟩

/-- C4, witness: a 6-byte channel-0 datagram through the amended theorem's
success branch. -/
theorem claim4_amended_parseChannelPacket_witness :
    parseChannelPacket [0, 0, 0, 0, 4, 9] =
      .ok { channelId := 0, start := 4, payload := [9] } := by
  have h := (claim4_amended_parseChannelPacket [0, 0, 0, 0, 4, 9]).2.2 0
    rfl (by decide) (by decide) (by decide) (by decide)
  simpa using h

/-- C5, counterexample: a buffered frame whose size varint carries the
continuation bit on its fifth byte is decoded without any error — the parser
reads a sixth varint byte instead of failing — so the drain succeeds and
emits the message, where the claim demands a fatal `VarintTooLarge` error. -/
theorem claim5_counterexample :
    (handlePacket 0 [7, 128, 128, 128, 128, 128, 0] (freshRecv 0 0)).1 = none ∧
    (handlePacket 0 [7, 128, 128, 128, 128, 128, 0] (freshRecv 0 0)).2.1.messages
      = [{ protocolId := 7, payload := [] }] := by
  decide

/-- C1, counterexample: the frame `SendChannel.queue` builds for a 128-byte
body uses the little-endian varint `[0x80, 0x01]`, which the ReceiveChannel's
MSB-first header parser reads back as size 1, so the drain does not decode
the single queued message back. -/
theorem claim1_counterexample :
    (handlePacket 0 (queueMessage 7 (List.replicate 128 0)) (freshRecv 0 0)).2.1.messages
      ≠ [{ protocolId := 7, payload := List.replicate 128 0 }] := by
  decide

/-- C1, amended: for every protocol id below 256 and every body SHORTER THAN
128 BYTES — so that the length's varint is a single byte, on which the
little-endian `encodeVarInt` and the ReceiveChannel's MSB-first header parser
agree — the frame built by `SendChannel.queue`, delivered contiguously to a
fresh ReceiveChannel starting at its expected sequence, is decoded without
error back into exactly the single message `(protocol_id, body)`. -/
theorem claim1_amended_roundtrip_small_bodies
    (protocolId : Nat) (body : List Nat) (e0 : Int)
    (hpid : protocolId < 256) (hlen : body.length < 128) :
    (handlePacket e0 (queueMessage protocolId body) (freshRecv 0 e0)).1 = none ∧
    (handlePacket e0 (queueMessage protocolId body) (freshRecv 0 e0)).2.1.messages
      = [{ protocolId := protocolId, payload := body }] := by
  rcases body with _ | ⟨x, xs⟩
  · exact roundtrip_empty_body protocolId hpid e0
  · exact roundtrip_nonempty_body protocolId hpid x xs hlen e0

/-- C1, witness: protocol 7, body `[AA, BB]`, expected sequence 100. -/
theorem claim1_amended_roundtrip_small_bodies_witness :
    (handlePacket 100 (queueMessage 7 [0xAA, 0xBB]) (freshRecv 0 100)).1 = none ∧
    (handlePacket 100 (queueMessage 7 [0xAA, 0xBB]) (freshRecv 0 100)).2.1.messages
      = [{ protocolId := 7, payload := [0xAA, 0xBB] }] :=
  claim1_amended_roundtrip_small_bodies 7 [0xAA, 0xBB] 100 (by decide) (by decide)

/-- C5, amended: the receive-side framing-varint parser accepts size varints
of at most SIX bytes: when the bytes at stream offsets 1 through 6 all carry
the continuation bit, the message drain fails with the fatal
`Protocol length varint exceeds expected size` error. (A continuation bit on
the fifth byte alone makes the parser read a sixth byte, as the
counterexample shows.) -/
theorem claim5_amended_sixth_continuation_fatal
    (protocolId b1 b2 b3 b4 b5 b6 : Nat) (rest : List Nat)
    (h1 : b1 &&& 128 ≠ 0) (h2 : b2 &&& 128 ≠ 0) (h3 : b3 &&& 128 ≠ 0)
    (h4 : b4 &&& 128 ≠ 0) (h5 : b5 &&& 128 ≠ 0) (h6 : b6 &&& 128 ≠ 0) :
    (handlePacket 0 (protocolId :: b1 :: b2 :: b3 :: b4 :: b5 :: b6 :: rest)
      (freshRecv 0 0)).1 = some "Protocol length varint exceeds expected size" := by
  have hloop := peekHeaderLoop_sixContinuation protocolId b1 b2 b3 b4 b5 b6 rest
    h1 h2 h3 h4 h5 h6
  have hpk0 : peekByte [{ buffer := protocolId :: b1 :: b2 :: b3 :: b4 :: b5 :: b6 :: rest, offset := 0 }] 0
      = some protocolId := by
    rw [peekByte_single _ _ (by simp)]; rfl
  have hph : peekHeader [{ buffer := protocolId :: b1 :: b2 :: b3 :: b4 :: b5 :: b6 :: rest, offset := 0 }]
      (rest.length + 7)
      = (some "Protocol length varint exceeds expected size", none) := by
    simp [peekHeader, hpk0, hloop]
  simp [handlePacket, show seqLessThan 0 0 = false by decide, mapHas, mapSet,
    flushPending, flushLoop, mapGet, List.find?, mapDelete, enqueueChunk,
    freshRecv, drainMessages, drainLoop,
    show (0:Nat) + (rest.length + 7) = rest.length + 7 by omega, hph,
    show rest.length + 7 + 2 = (rest.length + 8) + 1 by omega]

/-- C5, witness: the 6-continuation-byte stream `[7, 80 x6, 00]`. -/
theorem claim5_amended_sixth_continuation_fatal_witness :
    (handlePacket 0 [7, 128, 128, 128, 128, 128, 128, 0] (freshRecv 0 0)).1
      = some "Protocol length varint exceeds expected size" :=
  claim5_amended_sixth_continuation_fatal 7 128 128 128 128 128 128 [0]
    (by decide) (by decide) (by decide) (by decide) (by decide) (by decide)

/-- The retransmit scan succeeds whenever some in-flight entry is due. -/
theorem scanResend_due (now : Int) (fl : List (Int × InFlightEntry))
    (h : ∃ p ∈ fl, RESEND_TIMEOUT_MS ≤ now - p.2.timestamp) :
    ∃ s e rest, scanResend now fl = some (s, e, rest) := by
  induction fl with
  | nil => simp at h
  | cons p rest ih =>
    obtain ⟨a, b⟩ := p
    by_cases hd : RESEND_TIMEOUT_MS ≤ now - b.timestamp
    · exact ⟨a, { b with timestamp := now, retries := b.retries + 1 },
        (a, { b with timestamp := now, retries := b.retries + 1 }) :: rest,
        by simp [scanResend, hd]⟩
    · obtain ⟨q, hq, hqd⟩ := h
      rcases List.mem_cons.mp hq with rfl | hmem
      · exact absurd hqd (by simpa using hd)
      · obtain ⟨s, e, r, hr⟩ := ih ⟨q, hmem, hqd⟩
        exact ⟨s, e, (a, b) :: r, by simp [scanResend, hd, hr]⟩

/-- C8: on a SendChannel with initial sequence 100, after
`queue(7, [AA,BB,CC])` and `get_packet(now=0)` (which emits start 100,
resend false), `get_packet(now=499)` returns none and `get_packet(now=500)`
returns the same packet with start 100 and `resend = true`, bumping the
in-flight entry's retries to 1; and in general, whenever some in-flight
entry is due (`now - timestamp >= 500`), `get_packet` returns a
`resend = true` packet in preference to any pending fresh message. -/
theorem claim8_retransmit_priority (st : SendState) (now : Int)
    (hdue : ∃ p ∈ st.inFlight, RESEND_TIMEOUT_MS ≤ now - p.2.timestamp) :
    (∃ q, (getPacket now st).2.1 = some q ∧ q.resend = true) ∧
    (getPacket 0 (queue 7 [0xAA, 0xBB, 0xCC] (freshSend 0 100))).2.1
      = some { start := 100, payload := [7, 3, 0xAA, 0xBB, 0xCC], resend := false } ∧
    (getPacket 499 ((getPacket 0 (queue 7 [0xAA, 0xBB, 0xCC] (freshSend 0 100))).2.2)).2.1
      = none ∧
    (getPacket 500 ((getPacket 0 (queue 7 [0xAA, 0xBB, 0xCC] (freshSend 0 100))).2.2)).2.1
      = some { start := 100, payload := [7, 3, 0xAA, 0xBB, 0xCC], resend := true } ∧
    (getPacket 500 ((getPacket 0 (queue 7 [0xAA, 0xBB, 0xCC] (freshSend 0 100))).2.2)).2.2.inFlight
      = [(100, { payload := [7, 3, 0xAA, 0xBB, 0xCC], timestamp := 500, len := 5,
                 retries := 1 })] := by
  refine ⟨?_, by decide, by decide, by decide, by decide⟩
  obtain ⟨s, e, r, hr⟩ := scanResend_due now st.inFlight hdue
  exact ⟨{ start := s, payload := e.payload, resend := true },
    by simp [getPacket, hr], rfl⟩

/-- C8, witness: a channel with one in-flight entry stamped 0, polled at
`now = 600`. -/
theorem claim8_retransmit_priority_witness :
    (∃ q, (getPacket 600 ((getPacket 0 (queue 7 [1] (freshSend 0 0))).2.2)).2.1
        = some q ∧ q.resend = true) ∧
    (getPacket 0 (queue 7 [0xAA, 0xBB, 0xCC] (freshSend 0 100))).2.1
      = some { start := 100, payload := [7, 3, 0xAA, 0xBB, 0xCC], resend := false } ∧
    (getPacket 499 ((getPacket 0 (queue 7 [0xAA, 0xBB, 0xCC] (freshSend 0 100))).2.2)).2.1
      = none ∧
    (getPacket 500 ((getPacket 0 (queue 7 [0xAA, 0xBB, 0xCC] (freshSend 0 100))).2.2)).2.1
      = some { start := 100, payload := [7, 3, 0xAA, 0xBB, 0xCC], resend := true } ∧
    (getPacket 500 ((getPacket 0 (queue 7 [0xAA, 0xBB, 0xCC] (freshSend 0 100))).2.2)).2.2.inFlight
      = [(100, { payload := [7, 3, 0xAA, 0xBB, 0xCC], timestamp := 500, len := 5,
                 retries := 1 })] :=
  claim8_retransmit_priority ((getPacket 0 (queue 7 [1] (freshSend 0 0))).2.2) 600
    (by decide)

/-- C9: when the connection is `connected`, no inbound datagram has been seen
for `KEEP_ALIVE_TIMEOUT_MS` (8000 ms) and no disconnect has been emitted yet,
the next tick emits exactly one `disconnect(timeout)` event, transitions the
connection to `closed`, sends no datagram at all (in particular no DISCONNECT
notification to the peer), and — the emitted flag now being set and the phase
no longer `connected` — no later tick can emit any further event. -/
theorem claim9_keepalive_timeout (st : ConnState) (now : Int)
    (hphase : st.phase = .connected)
    (htime : KEEP_ALIVE_TIMEOUT_MS ≤ now - st.lastInbound)
    (hnot : st.disconnectEmitted = false) :
    (tick now st).2.2.1 = [ConnEvent.disconnect .timeout] ∧
    (tick now st).2.1.phase = .closed ∧
    (tick now st).2.1.disconnectEmitted = true ∧
    (tick now st).2.2.2 = [] ∧
    (∀ now2, (tick now2 (tick now st).2.1).2.2.1 = []) := by
  have h1 : tick now st =
      (none, { st with disconnectEmitted := true, phase := ConnPhase.closed },
       [ConnEvent.disconnect .timeout], []) := by
    simp [tick, hphase, htime, emitDisconnect, hnot, close, closeFinalize]
  refine ⟨by simp [h1], by simp [h1], by simp [h1], by simp [h1], ?_⟩
  intro now2
  rw [h1]
  simp [tick]

/-- C9, witness: the concrete connected state `c3Conn` (last inbound at 0)
ticked at `now = 8000`. -/
theorem claim9_keepalive_timeout_witness :
    (tick 8000 c3Conn).2.2.1 = [ConnEvent.disconnect .timeout] ∧
    (tick 8000 c3Conn).2.1.phase = .closed ∧
    (tick 8000 c3Conn).2.1.disconnectEmitted = true ∧
    (tick 8000 c3Conn).2.2.2 = [] ∧
    (∀ now2, (tick now2 (tick 8000 c3Conn).2.1).2.2.1 = []) :=
  claim9_keepalive_timeout c3Conn 8000 (by decide) (by decide) (by decide)

/-- C7, counterexample: with `expected = 0`, handling `(5, [AA])` and then
`(0, 10 zero bytes)` leaves the key 5 in the pending map while `expected`
advances to 10 past it: 5 < 10 under signed comparison, violating the claimed
invariant (the second packet's 10-byte range strictly covers the start 5). -/
theorem claim7_counterexample :
    (5, [0xAA]) ∈
      (runRecv [(5, [0xAA]), (0, List.replicate 10 0)] (freshRecv 0 0)).pending ∧
    seqLessThan 5
      (runRecv [(5, [0xAA]), (0, List.replicate 10 0)] (freshRecv 0 0)).expected
      = true := by
  decide

/-- C7, amended: for every finite sequence of `handle_packet(start, payload)`
calls whose starts are normalized int32 values and in which NO CALL'S START
FALLS STRICTLY INSIDE ANOTHER CALL'S PAYLOAD RANGE (the segmentation a
conforming sender produces), after each call every key remaining in the
pending map satisfies `key ≥ expected` under signed 32-bit comparison. With
overlapping packets the invariant fails, as the counterexample shows. -/
theorem claim7_amended_pending_keys
    (ops : List (Int × List Nat)) (e0 : Int) (cid : Nat) (n : Nat)
    (h0 : toInt32 e0 = e0)
    (h1 : ∀ p ∈ ops, toInt32 p.1 = p.1)
    (hno : NoOverlap ops)
    (k : Int) (v : List Nat)
    (hk : (k, v) ∈ (runRecv (ops.take n) (freshRecv cid e0)).pending) :
    seqLessThan k (runRecv (ops.take n) (freshRecv cid e0)).expected = false := by
  have hinv := runRecv_inv ops hno (ops.take n) (freshRecv cid e0)
    (fun q hq => ⟨List.take_subset n ops hq, h1 q (List.take_subset n ops hq)⟩)
    ⟨by simpa [freshRecv] using h0, by simp [freshRecv], by simp [freshRecv]⟩
  exact (hinv.2.1 (k, v) hk).2.1

/-- C7, witness: one non-overlapping future packet `(5, [1])` on a fresh
channel with `expected = 0`. -/
theorem claim7_amended_pending_keys_witness :
    seqLessThan 5 (runRecv ([(5, [1])].take 1) (freshRecv 0 0)).expected = false :=
  claim7_amended_pending_keys [(5, [1])] 0 0 1 (by decide) (by decide)
    (by unfold NoOverlap; decide) 5 [1] (by decide)

/-- C6, counterexample: `c6Rounds` rounds of queueing and emitting a maximal
543-byte frame with no ack ever arriving push `nextIndex` more than `2^31`
bytes past the untouched `fullyConfirmed`, so under signed 32-bit comparison
`nextIndex` wraps to lie strictly BELOW `fullyConfirmed` — `fully_confirmed ≤
next_index` fails for this finite operation sequence. -/
theorem claim6_counterexample :
    seqLessThan (runSend (c6Pattern c6Rounds) (freshSend 0 0)).nextIndex
      (runSend (c6Pattern c6Rounds) (freshSend 0 0)).fullyConfirmed = true := by
  obtain ⟨hni, hfc⟩ := c6_pattern_run c6Rounds (freshSend 0 0) rfl
    (by simp [freshSend]) (by decide)
  rw [hni, hfc]
  decide

/-- C6, amended: for every finite sequence of `queue`/`get_packet`/
`handle_ack` operations on a fresh SendChannel SHORT ENOUGH THAT FEWER THAN
`2^31` BYTES CAN BE EMITTED (each operation emits at most `MTU - 5 = 543`
bytes, so `543 * length < 2^31` suffices), `fully_confirmed` is monotonic
non-decreasing under signed 32-bit comparison across the sequence, and after
every operation `fully_confirmed ≤ next_index` under signed comparison.
Beyond that bound the unacknowledged stream can wrap half the sequence space
and the signed comparison inverts, as the counterexample shows. -/
theorem claim6_amended_bounded_bytes (ops : List SendOp) (init : Int) (i j : Nat)
    (hops : 543 * ops.length < 2 ^ 31) (hij : i ≤ j) :
    seqLessThan (runSend (ops.take j) (freshSend 0 init)).fullyConfirmed
      (runSend (ops.take i) (freshSend 0 init)).fullyConfirmed = false ∧
    seqLessThan (runSend (ops.take j) (freshSend 0 init)).nextIndex
      (runSend (ops.take j) (freshSend 0 init)).fullyConfirmed = false := by
  have hfresh : SendInv (toInt32 init) 0 0 (freshSend 0 init) := by
    refine ⟨?_, ?_, le_refl _, by simp [freshSend], by simp [freshSend]⟩
    · simp [freshSend, toInt32_idem]
    · simp [freshSend, toInt32_idem]
  have hleni : (ops.take i).length ≤ ops.length := by
    simp [List.length_take]
  obtain ⟨Ci, Bi, hi, _, hBi⟩ := runSend_inv (toInt32 init) (ops.take i)
    (freshSend 0 init) 0 0 0 hfresh (by omega) (by simpa using by omega)
  rw [Nat.zero_add] at hBi
  have hsplit : ops.take j = ops.take i ++ (ops.drop i).take (j - i) := by
    rw [← List.take_add]
    congr 1
    omega
  have hruns : runSend (ops.take j) (freshSend 0 init)
      = runSend ((ops.drop i).take (j - i))
          (runSend (ops.take i) (freshSend 0 init)) := by
    rw [hsplit]
    simp [runSend]
  have hlenj : (ops.take i).length + ((ops.drop i).take (j - i)).length
      = (ops.take j).length := by
    rw [hsplit]
    simp
  have hlenj2 : (ops.take j).length ≤ ops.length := by
    simp [List.length_take]
  obtain ⟨Cj, Bj, hj, hCij, hBj⟩ := runSend_inv (toInt32 init)
    ((ops.drop i).take (j - i)) (runSend (ops.take i) (freshSend 0 init))
    Ci Bi (ops.take i).length hi hBi (by omega)
  rw [hlenj] at hBj
  obtain ⟨hfcj, hnij, hCBj, _, _⟩ := hj
  obtain ⟨hfci, _, hCBi, _, _⟩ := hi
  rw [hruns, hfcj, hfci, hnij]
  have hCj31 : (Cj : Int) < 2 ^ 31 := by
    have hx : Cj < 2 ^ 31 := by omega
    exact_mod_cast hx
  have hBj31 : (Bj : Int) < 2 ^ 31 := by
    have hx : Bj < 2 ^ 31 := by omega
    exact_mod_cast hx
  exact ⟨seqLessThan_toInt32_add_false _ Ci Cj hCij hCj31,
    seqLessThan_toInt32_add_false _ Cj Bj hCBj hBj31⟩

/-- C6, witness: a three-operation sequence (queue, emit, stray ack) from
initial sequence 100, comparing the states after operations 1 and 3. -/
theorem claim6_amended_bounded_bytes_witness :
    seqLessThan
      (runSend ([SendOp.queue 7 [171], SendOp.getPacket 0,
        SendOp.handleAck 100].take 3) (freshSend 0 100)).fullyConfirmed
      (runSend ([SendOp.queue 7 [171], SendOp.getPacket 0,
        SendOp.handleAck 100].take 1) (freshSend 0 100)).fullyConfirmed = false ∧
    seqLessThan
      (runSend ([SendOp.queue 7 [171], SendOp.getPacket 0,
        SendOp.handleAck 100].take 3) (freshSend 0 100)).nextIndex
      (runSend ([SendOp.queue 7 [171], SendOp.getPacket 0,
        SendOp.handleAck 100].take 3) (freshSend 0 100)).fullyConfirmed = false :=
  claim6_amended_bounded_bytes
    [SendOp.queue 7 [171], SendOp.getPacket 0, SendOp.handleAck 100] 100 1 3
    (by decide) (by decide)

end Cubyz
